import Mathlib

/-!
Verification development for the `copilot-codespace` remote-execution layer.

The Go sources are shallowly embedded: Go strings become `List Char`
(`Str` below), the remote file system becomes an association list from
paths to contents, the remote tmux server becomes a list of sessions,
and the MCP tool handlers become pure Lean functions from an environment
record (the operations of `ssh.Client` plus the process clock) and a
decoded JSON argument object to the result envelope the Go code builds.
Every definition mirrors a named function of the repository
(`internal/ssh`, `internal/mcp/server.go`, `cmd/copilot-codespace/main.go`);
remote shell plumbing (base64 transport, awk/cat invocations) is modelled
by its effect on the file store.
-/

set_option maxRecDepth 4096

/-- Go strings are modelled as lists of characters. -/
abbrev Str := List Char

/-- Shorthand turning a Lean string literal into the `Str` model. -/
def chars (s : String) : Str := s.data

/-- `strings.Count` scanning loop for a nonempty pattern `p :: ps`:
counts non-overlapping occurrences left to right, exactly as Go's
`strings.Count` does via repeated `Index`. -/
def goCountAux (p : Char) (ps : Str) : Str → Nat
  | [] => 0
  | c :: t =>
    if (p :: ps).isPrefixOf (c :: t) then
      goCountAux p ps (t.drop ps.length) + 1
    else
      goCountAux p ps t
termination_by s => s.length
decreasing_by
  · simp only [List.length_drop, List.length_cons]; omega
  · simp only [List.length_cons]; omega

/-- Go `strings.Count(s, pat)`: for an empty pattern Go returns
`RuneCount(s) + 1`; otherwise the non-overlapping occurrence count. -/
def goCount (s pat : Str) : Nat :=
  match pat with
  | [] => s.length + 1
  | p :: ps => goCountAux p ps s

/-- Replacement loop of Go `strings.Replace(s, old, new, 1)` for a
nonempty pattern: the first occurrence is replaced, the rest is kept. -/
def goReplaceFirstAux (p : Char) (ps new : Str) : Str → Str
  | [] => []
  | c :: t =>
    if (p :: ps).isPrefixOf (c :: t) then
      new ++ t.drop ps.length
    else
      c :: goReplaceFirstAux p ps new t

/-- Go `strings.Replace(s, old, new, 1)`; with `old = ""` Go inserts
`new` once, before the first rune. -/
def goReplaceFirst (s old new : Str) : Str :=
  match old with
  | [] => new ++ s
  | p :: ps => goReplaceFirstAux p ps new s

/-- Go `strings.ReplaceAll(s, old, new)` specialised to the
single-character pattern the repository uses (`shellQuote` replaces
only the single-quote character). -/
def goReplaceAllChar (old : Char) (new : Str) : Str → Str
  | [] => []
  | c :: t =>
    if c = old then new ++ goReplaceAllChar old new t
    else c :: goReplaceAllChar old new t

/-- The single-quote character, kept as a named constant because it is
the character `ssh.shellQuote` escapes. -/
def squote : Char := '\''

/-- The double-quote character. -/
def dquote : Char := '"'

/-- `ssh.shellQuote` / `main.shellQuote`: wrap in single quotes and turn
every embedded single quote into the five-character sequence
quote, double-quote, quote, double-quote, quote. -/
def shellQuote (s : Str) : Str :=
  [squote] ++ goReplaceAllChar squote [squote, dquote, squote, dquote, squote] s ++ [squote]

/-! ### The remote file store

`ssh.Client.ViewFile` / `EditFile` / `CreateFile` act on remote files
through shell commands; their effect is modelled on an association list
from paths to contents. -/

/-- The remote file system: paths mapped to file contents. -/
abbrev FS := List (Str × Str)

/-- Reading a remote file (the `base64 < path` / `cat path` step). -/
def fsRead : FS → Str → Option Str
  | [], _ => none
  | (p, c) :: rest, q => if p = q then some c else fsRead rest q

/-- Writing a remote file (`echo <b64> | base64 -d > path`): overwrite
or create. -/
def fsWrite : FS → Str → Str → FS
  | [], p, c => [(p, c)]
  | (p', c') :: rest, p, c =>
    if p' = p then (p, c) :: rest else (p', c') :: fsWrite rest p c

/-! ### ViewFile: awk line numbering -/

/-- Split on newline characters (record separation as awk performs it). -/
def splitOnNl : Str → List Str
  | [] => [[]]
  | c :: t =>
    if c = '\n' then [] :: splitOnNl t
    else
      match splitOnNl t with
      | [] => [[c]]
      | l :: ls => (c :: l) :: ls

/-- The records awk sees in a file body: a trailing newline terminates
the last record instead of opening an empty one, and an empty file has
no records. -/
def awkRecords (s : Str) : List Str :=
  match s with
  | [] => []
  | _ => splitOnNl (if s.getLast? = some '\n' then s.dropLast else s)

/-- One line of `awk '\x7bprint NR". "$0\x7d'` output. -/
def numberLine (n : Nat) (l : Str) : Str :=
  (Nat.repr n).data ++ chars ". " ++ l ++ ['\n']

/-- Number records from `n` upward, keeping only those whose record
number satisfies `keep` (the awk `NR` filter). -/
def numberFromFiltered (keep : Nat → Bool) : Nat → List Str → Str
  | _, [] => []
  | n, l :: ls =>
    (if keep n then numberLine n l else []) ++ numberFromFiltered keep (n + 1) ls

/-- `ssh.Client.ViewFile`: line numbers the remote file; a range
`[start, end]` keeps records `start ≤ NR ≤ end`, `end = -1` keeps
`start ≤ NR`; no range numbers the whole file. A missing file makes the
remote command fail, surfaced as an error. -/
def viewFile (fs : FS) (path : Str) (viewRange : Option (Int × Int)) : Except Str Str :=
  match fsRead fs path with
  | none => Except.error (chars "view file failed (exit 1)")
  | some content =>
    match viewRange with
    | none => Except.ok (numberFromFiltered (fun _ => true) 1 (awkRecords content))
    | some (st, en) =>
      if en = -1 then
        Except.ok (numberFromFiltered (fun n => decide (st ≤ (n : Int))) 1 (awkRecords content))
      else
        Except.ok (numberFromFiltered (fun n => decide (st ≤ (n : Int) ∧ (n : Int) ≤ en)) 1 (awkRecords content))

/-! ### EditFile -/

/-- Outcome of `ssh.Client.EditFile`. -/
inductive EditResult where
  | readFailed
  | notFound
  | ambiguousMatch (count : Nat)
  | edited
deriving DecidableEq, Repr

/-- `ssh.Client.EditFile`: read the remote file, require the pattern to
occur exactly once (`strings.Count`), replace the occurrence
(`strings.Replace(.., 1)`) and write back; zero occurrences and two or
more occurrences return the corresponding error without writing. -/
def editFile (fs : FS) (path oldStr newStr : Str) : EditResult × FS :=
  match fsRead fs path with
  | none => (EditResult.readFailed, fs)
  | some content =>
    let count := goCount content oldStr
    if count = 0 then (EditResult.notFound, fs)
    else if count > 1 then (EditResult.ambiguousMatch count, fs)
    else (EditResult.edited, fsWrite fs path (goReplaceFirst content oldStr newStr))

/-! ### Search (Grep) and Glob

`ssh.Client.Grep` runs `(rg --color=never -n ...) 2>/dev/null || grep -rn ...`
remotely with no truncation stage; `ssh.Client.Glob` pipes its
`fd`/`find` pipeline through `head -200`. Remote search results are
modelled as the list of match lines the remote tool emits; the pipeline
turns them into the stdout and exit code `Exec` reports. -/

/-- The remote output of the search pipelines: every line followed by a
newline. -/
def unlines (ls : List Str) : Str := (ls.map (fun l => l ++ ['\n'])).flatten

/-- `ssh.Client.Grep`: stdout of the remote search is forwarded
verbatim (the command contains no truncation stage); exit code `1`
(no matches) is treated as success with empty output, exit codes above
`1` are errors. -/
def clientGrep (ms : List Str) : Except Str Str :=
  let exitCode : Nat := if ms.isEmpty then 1 else 0
  if exitCode > 1 then Except.error (chars "grep failed")
  else Except.ok (unlines ms)

/-- `ssh.Client.Glob`: the remote pipeline ends in `head -200`, so only
the first 200 result lines survive. -/
def clientGlob (files : List Str) : Except Str Str :=
  Except.ok (unlines (files.take 200))

/-! ### Sessions: names, parseInput, WriteSession, ListSessions -/

/-- `ssh.tmuxPrefix`, the reserved session-name prefix. -/
def tmuxPrefixStr : Str := chars "copilot-"

/-- `ssh.tmuxSessionName`: prefix concatenated with the identifier. -/
def tmuxSessionName (sessionID : Str) : Str := tmuxPrefixStr ++ sessionID

/-- `ssh.specialKeys`: the brace-delimited tokens and their tmux key
names. Go iterates the map in arbitrary order; since no two patterns
can match at the same position (their second characters differ), the
earliest-match selection in `parseInput` makes the order irrelevant. -/
def specialKeys : List (Str × Str) :=
  [(chars "\x7benter\x7d", chars "Enter"),
   (chars "\x7bup\x7d", chars "Up"),
   (chars "\x7bdown\x7d", chars "Down"),
   (chars "\x7bleft\x7d", chars "Left"),
   (chars "\x7bright\x7d", chars "Right"),
   (chars "\x7bbackspace\x7d", chars "BSpace")]

/-- The special key (pattern and tmux name) matching at the head of the
input, if any. -/
def matchSpecial (l : Str) : Option (Str × Str) :=
  specialKeys.find? (fun p => p.fst.isPrefixOf l)

/-- The earliest special-key occurrence in the input: the literal text
before it, the matched pattern, its tmux key name, and the remaining
input; `none` when no token occurs (the `bestIdx < 0` case of
`parseInput`). -/
def findSpecial : Str → Option (Str × Str × Str × Str)
  | [] => none
  | c :: t =>
    match matchSpecial (c :: t) with
    | some (pat, key) => some ([], pat, key, t.drop (pat.length - 1))
    | none =>
      match findSpecial t with
      | some (pre, pat, key, rest) => some (c :: pre, pat, key, rest)
      | none => none

theorem specialKeys_pat_len : ∀ p ∈ specialKeys, 4 ≤ p.fst.length := by decide

theorem matchSpecial_some {l : Str} {pat key : Str}
    (h : matchSpecial l = some (pat, key)) :
    (pat, key) ∈ specialKeys ∧ pat <+: l := by
  have hmem := List.mem_of_find?_eq_some h
  have hp := List.find?_some h
  exact ⟨hmem, List.isPrefixOf_iff_prefix.mp hp⟩

theorem findSpecial_some : ∀ {l pre pat key rest : Str},
    findSpecial l = some (pre, pat, key, rest) →
    l = pre ++ pat ++ rest ∧ (pat, key) ∈ specialKeys ∧ rest.length < l.length := by
  intro l
  induction l with
  | nil => intro pre pat key rest h; simp [findSpecial] at h
  | cons c t ih =>
    intro pre pat key rest h
    rw [findSpecial] at h
    split at h
    · rename_i pat' key' hm
      obtain ⟨hmem, hpre⟩ := matchSpecial_some hm
      simp only [Option.some.injEq, Prod.mk.injEq] at h
      obtain ⟨h1, h2, h3, h4⟩ := h
      subst h1; subst h2; subst h3; subst h4
      have hlen : 4 ≤ pat'.length := specialKeys_pat_len _ hmem
      obtain ⟨tail, htail⟩ := hpre
      have hdrop : t.drop (pat'.length - 1) = (c :: t).drop pat'.length := by
        cases hpl : pat'.length with
        | zero => omega
        | succ n => simp [List.drop_succ_cons]
      have htl : (c :: t).drop pat'.length = tail := by
        rw [← htail]; simp
      constructor
      · rw [hdrop, htl]
        simpa using htail.symm
      refine ⟨hmem, ?_⟩
      rw [hdrop, htl]
      have := congrArg List.length htail
      simp only [List.length_append, List.length_cons] at this
      simp only [List.length_cons]
      omega
    · rename_i hm
      split at h
      · rename_i pre' pat' key' rest' hf
        simp only [Option.some.injEq, Prod.mk.injEq] at h
        obtain ⟨h1, h2, h3, h4⟩ := h
        subst h2; subst h3; subst h4
        obtain ⟨heq, hmem, hlt⟩ := ih hf
        subst h1
        constructor
        · simp [heq]
        exact ⟨hmem, by simp only [List.length_cons]; omega⟩
      · exact absurd h (by simp)

/-- `ssh.parseInput`: split the input into literal runs and special-key
segments; a key segment is the tmux key name prefixed with the NUL
character. -/
def parseInput (input : Str) : List Str :=
  if input = [] then []
  else
    match h : findSpecial input with
    | none => [input]
    | some (pre, _pat, key, rest) =>
      (if pre = [] then [] else [pre]) ++ ('\x00' :: key) :: parseInput rest
termination_by input.length
decreasing_by
  exact (findSpecial_some h).2.2

example : parseInput (chars "ls\x7benter\x7d") = [chars "ls", '\x00' :: chars "Enter"] := by
  have h1 : findSpecial (chars "ls\x7benter\x7d") =
      some (chars "ls", chars "\x7benter\x7d", chars "Enter", []) := by rfl
  rw [parseInput, if_neg (by decide), h1]
  dsimp only
  rw [if_neg (by decide)]
  rw [parseInput, if_pos rfl]
  rfl

/-- The key names of `specialKeys` are pairwise distinct, so the
pattern belonging to a key name is well defined. -/
def keyPattern (k : Str) : Str :=
  ((specialKeys.find? (fun p => p.snd == k)).map Prod.fst).getD []

/-- The text a dispatched segment stands for: a control-key segment
(NUL-prefixed, as `parseInput` marks them) stands for its source token,
a literal segment for itself. -/
def segText (seg : Str) : Str :=
  match seg with
  | [] => []
  | c :: k => if c = '\x00' then keyPattern k else c :: k

/-- Concatenating the texts of a segment list. -/
def joinSegs (segs : List Str) : Str := (segs.map segText).flatten

theorem keyPattern_of_mem {pat key : Str} (h : (pat, key) ∈ specialKeys) :
    keyPattern key = pat := by
  fin_cases h <;> rfl

theorem findSpecial_token_occurs {l pre pat key rest : Str}
    (h : findSpecial l = some (pre, pat, key, rest)) :
    pat <:+: l := by
  obtain ⟨heq, _, _⟩ := findSpecial_some h
  exact ⟨pre, rest, by simp [heq]⟩

/-- `parseInput` on text containing no special token yields the single
literal segment (the `bestIdx < 0` branch). -/
theorem parseInput_no_special (input : Str) (hne : input ≠ [])
    (hns : ∀ pat key, (pat, key) ∈ specialKeys → ¬ pat <:+: input) :
    parseInput input = [input] := by
  rw [parseInput, if_neg hne]
  split
  · rfl
  · rename_i pre pat key rest h
    exact absurd (findSpecial_token_occurs h) (hns pat key (findSpecial_some h).2.1)

/-- The decomposition is faithful: concatenating the dispatched
segments (control keys standing for their source tokens) recovers the
input, for any input free of the internal NUL marker character. -/
theorem joinSegs_parseInput (input : Str) (hnul : '\x00' ∉ input) :
    joinSegs (parseInput input) = input := by
  induction input using parseInput.induct with
  | case1 => rw [parseInput, if_pos rfl]; rfl
  | case2 input hne h =>
    rw [parseInput, if_neg hne, h]
    obtain ⟨c, t, rfl⟩ := List.exists_cons_of_ne_nil hne
    have hc : c ≠ '\x00' := fun hcc => hnul (hcc ▸ List.mem_cons_self c t)
    simp [joinSegs, segText, hc]
  | case3 input hne pre pat key rest h ih =>
    obtain ⟨heq, hmem, _⟩ := findSpecial_some h
    have hnulrest : '\x00' ∉ rest := fun hx => hnul (by rw [heq]; simp [hx])
    rw [parseInput, if_neg hne, h]
    dsimp only
    rw [heq]
    by_cases hpre : pre = []
    · subst hpre
      have hrest : joinSegs (parseInput rest) = rest := ih hnulrest
      simp only [joinSegs] at hrest
      simp [joinSegs, segText, keyPattern_of_mem hmem, hrest]
    · obtain ⟨c, t, rfl⟩ := List.exists_cons_of_ne_nil hpre
      have hc : c ≠ '\x00' := fun hcc => hnul (by rw [heq, hcc]; simp)
      rw [if_neg hpre]
      simp only [joinSegs, List.map_append, List.map_cons, List.flatten_append,
        List.flatten_cons, List.map_nil, List.flatten_nil]
      have hkey : segText ('\x00' :: key) = pat := by
        simp [segText, keyPattern_of_mem hmem]
      have hlit : segText (c :: t) = c :: t := by simp [segText, hc]
      rw [hkey, hlit]
      have : joinSegs (parseInput rest) = rest := ih hnulrest
      simp only [joinSegs] at this
      rw [this]
      simp

theorem chars_enter : chars "\x7benter\x7d" = ['\x7b', 'e', 'n', 't', 'e', 'r', '\x7d'] := rfl

theorem chars_up : chars "\x7bup\x7d" = ['\x7b', 'u', 'p', '\x7d'] := rfl

theorem chars_down : chars "\x7bdown\x7d" = ['\x7b', 'd', 'o', 'w', 'n', '\x7d'] := rfl

theorem chars_left : chars "\x7bleft\x7d" = ['\x7b', 'l', 'e', 'f', 't', '\x7d'] := rfl

theorem chars_right : chars "\x7bright\x7d" = ['\x7b', 'r', 'i', 'g', 'h', 't', '\x7d'] := rfl

theorem chars_backspace : chars "\x7bbackspace\x7d" = ['\x7b', 'b', 'a', 'c', 'k', 's', 'p', 'a', 'c', 'e', '\x7d'] := rfl

theorem isPrefixOf_self_append (l r : Str) : l.isPrefixOf (l ++ r) = true :=
  List.isPrefixOf_iff_prefix.mpr (List.prefix_append l r)

/-- A token pattern matched against itself followed by anything is the
token found at that position; no other token can match there since the
second characters of the six patterns are pairwise distinct. -/
theorem matchSpecial_self {pat key : Str} (post : Str) (h : (pat, key) ∈ specialKeys) :
    matchSpecial (pat ++ post) = some (pat, key) := by
  fin_cases h <;>
    simp [matchSpecial, specialKeys, List.find?, isPrefixOf_self_append,
      chars_enter, chars_up, chars_down, chars_left, chars_right, chars_backspace,
      List.isPrefixOf]

/-- No token matches at a position whose character is not an opening
brace: every pattern starts with one. -/
theorem matchSpecial_head_ne (c : Char) (t : Str) (hc : c ≠ '\x7b') :
    matchSpecial (c :: t) = none := by
  have hc' : ('\x7b' == c) = false := by
    rw [beq_eq_false_iff_ne]; exact Ne.symm hc
  simp [matchSpecial, specialKeys, List.find?,
    chars_enter, chars_up, chars_down, chars_left, chars_right, chars_backspace,
    List.isPrefixOf, hc']

/-- The earliest-match search finds a token placed after brace-free
literal text exactly there, splitting off that literal text. -/
theorem findSpecial_token : ∀ (pre : Str) {pat key : Str} (post : Str),
    (pat, key) ∈ specialKeys → '\x7b' ∉ pre →
    findSpecial (pre ++ pat ++ post) = some (pre, pat, key, post) := by
  intro pre
  induction pre with
  | nil =>
    intro pat key post hmem _
    have hlen : 4 ≤ pat.length := specialKeys_pat_len _ hmem
    obtain ⟨p, ps, rfl⟩ : ∃ p ps, pat = p :: ps := by
      cases pat with
      | nil => simp at hlen
      | cons p ps => exact ⟨p, ps, rfl⟩
    have hm := matchSpecial_self post hmem
    simp only [List.nil_append, List.cons_append] at hm ⊢
    rw [findSpecial, hm]
    simp [List.length_cons, List.drop_left']
  | cons c cs ih =>
    intro pat key post hmem hb
    have hc : c ≠ '\x7b' := fun hcc => hb (hcc ▸ List.mem_cons_self c cs)
    have hbcs : '\x7b' ∉ cs := fun hx => hb (List.mem_cons_of_mem c hx)
    have hrec := ih post hmem hbcs
    simp only [List.cons_append] at hrec ⊢
    rw [findSpecial, matchSpecial_head_ne c _ hc, hrec]

/-- A recognised token after brace-free literal text becomes exactly
one control-key segment after (at most) one literal segment, and
parsing continues after the token. -/
theorem parseInput_token (pre : Str) {pat key : Str} (post : Str)
    (hmem : (pat, key) ∈ specialKeys) (hb : '\x7b' ∉ pre) :
    parseInput (pre ++ pat ++ post) =
      (if pre = [] then [] else [pre]) ++ ('\x00' :: key) :: parseInput post := by
  have hf := findSpecial_token pre post hmem hb
  have hlen : 4 ≤ pat.length := specialKeys_pat_len _ hmem
  have hne : pre ++ pat ++ post ≠ [] := by
    intro hnil
    have := congrArg List.length hnil
    simp only [List.length_append, List.length_nil] at this
    omega
  rw [parseInput, if_neg hne]
  split
  · rename_i h
    rw [hf] at h
    cases h
  · rename_i pre' pat' key' rest' h
    rw [hf] at h
    simp only [Option.some.injEq, Prod.mk.injEq] at h
    obtain ⟨rfl, _, rfl, rfl⟩ := h
    rfl

/-- The `tmux send-keys` command `ssh.Client.WriteSession` issues for
one segment: a NUL-marked segment sends the bare tmux key name, a
literal segment is shell quoted. -/
def segCmd (name seg : Str) : Str :=
  match seg with
  | '\x00' :: tmuxKey => chars "tmux send-keys -t " ++ shellQuote name ++ [' '] ++ tmuxKey
  | _ => chars "tmux send-keys -t " ++ shellQuote name ++ [' '] ++ shellQuote seg

/-- `ssh.Client.WriteSession`: the ordered list of discrete
key-injection commands dispatched for the input, one per segment of
`parseInput`. -/
def writeSessionCmds (sessionID input : Str) : List Str :=
  (parseInput input).map (segCmd (tmuxSessionName sessionID))

/-! ### ListSessions -/

/-- A session of the remote terminal multiplexer: name plus the
creation and last-activity timestamps the list format prints. -/
structure TmuxSession where
  name : Str
  created : Nat
  activity : Nat
deriving DecidableEq

/-- One line of `tmux list-sessions -F` output:
name, creation time and activity time separated by spaces. -/
def sessionLine (s : TmuxSession) : Str :=
  s.name ++ [' '] ++ (Nat.repr s.created).data ++ [' '] ++ (Nat.repr s.activity).data

/-- `ssh.Client.ListSessions`: format every remote session, then keep
only lines beginning with the reserved prefix (the `grep '^copilot-'`
stage). -/
def listSessionsLines (sessions : List TmuxSession) : List Str :=
  (sessions.map sessionLine).filter (fun l => tmuxPrefixStr.isPrefixOf l)

/-- The name field of a formatted session line: the characters before
the first space. -/
def lineSessionName (l : Str) : Str := l.takeWhile (fun c => c != ' ')

theorem takeWhile_keeps_lead {pat l : Str} {p : Char → Bool}
    (hpre : pat <+: l) (hall : ∀ c ∈ pat, p c = true) :
    pat <+: l.takeWhile p := by
  induction pat generalizing l with
  | nil => exact List.nil_prefix
  | cons a as ih =>
    obtain ⟨t, rfl⟩ := hpre
    have ha : p a = true := hall a (List.mem_cons_self a as)
    simp only [List.cons_append, List.takeWhile_cons, ha, if_pos]
    have h2 : as <+: (as ++ t).takeWhile p :=
      ih (List.prefix_append as t) (fun c hc => hall c (List.mem_cons_of_mem a hc))
    obtain ⟨u, hu⟩ := h2
    exact ⟨u, by simp [← hu]⟩

/-! ### The MCP tool layer

`internal/mcp/server.go` receives JSON-decoded arguments
(`map[string]any`), validates them, and calls the `ssh.Client`
operations. JSON values are modelled by `JVal` (numbers as exact
rationals, which in particular represent every `float64` the JSON
decoder produces), argument maps by association lists, and the client
by a record of operation oracles `Env`; each handler also reports the
client operations it dispatched, in order, so that pre-dispatch
short-circuits are observable. -/

inductive JVal where
  | jstr (s : Str)
  | jnum (q : ℚ)
  | jbool (b : Bool)
  | jarr (elems : List JVal)
  | jobj (fields : List (Str × JVal))
  | jnull

/-- A decoded JSON object (`map[string]any`), as an association list. -/
abbrev JObj := List (Str × JVal)

/-- Map lookup. -/
def jlookup : JObj → Str → Option JVal
  | [], _ => none
  | (k', v) :: rest, k => if k' = k then some v else jlookup rest k

/-- Go's `int(f)` conversion on a `float64`: truncation toward zero
(the numerator divided by the denominator, rounding toward zero). -/
def ratTrunc (q : ℚ) : Int := q.num.tdiv q.den

/-- `mcp.toInt`: a JSON number converts to `int` (by truncation, as in
Go's `int(n)` on the decoded `float64`); anything else fails. -/
def toInt : JVal → Option Int
  | JVal.jnum q => some (ratTrunc q)
  | _ => none

/-- `mcp.requiredString`. -/
def requiredString (args : JObj) (key : Str) : Except Str Str :=
  match jlookup args key with
  | none => Except.error (chars "missing required parameter: " ++ key)
  | some (JVal.jstr s) => Except.ok s
  | some _ => Except.error (chars "parameter " ++ key ++ chars " must be a string")

/-- `mcp.optionalString`: missing or non-string yields the empty
string. -/
def optionalString (args : JObj) (key : Str) : Str :=
  match jlookup args key with
  | some (JVal.jstr s) => s
  | _ => []

/-- `mcp.optionalFloat`. -/
def optionalFloat (args : JObj) (key : Str) (defaultVal : ℚ) : ℚ :=
  match jlookup args key with
  | some (JVal.jnum q) => q
  | _ => defaultVal

/-- Whether `args` carries a string value under `key` (the condition
under which `requiredString` succeeds). -/
def hasStringArg (args : JObj) (key : Str) : Bool :=
  match jlookup args key with
  | some (JVal.jstr _) => true
  | _ => false

/-- The operations of `ssh.Client` as the handlers use them, plus the
process clock (`time.Now().UnixMilli()`), the local terminal opener of
the `open_shell` tool, and the codespace name the server was started
for. -/
structure Env where
  viewFile : Str → Option (Int × Int) → Except Str Str
  editFile : Str → Str → Str → Except Str Unit
  createFile : Str → Str → Except Str Unit
  runBash : Str → Except Str (Str × Str × Int)
  grep : Str → Str → Str → Except Str Str
  glob : Str → Str → Except Str Str
  startSession : Str → Str → Except Str Unit
  writeSession : Str → Str → Except Str Unit
  readSession : Str → Except Str Str
  stopSession : Str → Except Str Unit
  listSessions : Except Str Str
  openTerminalTab : Str → Str → Except Str Unit
  nowMillis : Nat
  codespaceName : Str

/-- A dispatched `ssh.Client` operation (remote round trip), recorded
by the handler embeddings. -/
inductive ExecCall where
  | viewFile (path : Str) (range : Option (Int × Int))
  | editFile (path old new : Str)
  | createFile (path content : Str)
  | runBash (command : Str)
  | grep (pattern path glob : Str)
  | glob (pattern path : Str)
  | startSession (id command : Str)
  | writeSession (id input : Str)
  | readSession (id : Str)
  | stopSession (id : Str)
  | listSessions
deriving DecidableEq, Repr

/-- `mcpsdk.CallToolResult` restricted to its one text content item. -/
structure CallToolResult where
  isError : Bool
  text : Str
deriving DecidableEq, Repr

/-- `mcp.toolSuccess`. -/
def toolSuccess (text : Str) : CallToolResult := ⟨false, text⟩

/-- `mcp.toolError`. -/
def toolError (text : Str) : CallToolResult := ⟨true, text⟩

/-- What a Go handler invocation produces: the result envelope, the
`error` return value (the second component of the Go return), and the
`ssh.Client` operations it dispatched, in order. -/
structure HandlerReturn where
  result : CallToolResult
  goError : Option Str
  calls : List ExecCall

/-- The inline `view_range` block of `mcp.viewHandler`: the range is
used only when the argument is a two-element array whose elements both
convert via `toInt`; otherwise it is silently dropped. -/
def parseViewRange (args : JObj) : Option (Int × Int) :=
  match jlookup args (chars "view_range") with
  | some (JVal.jarr [a, b]) =>
    match toInt a, toInt b with
    | some st, some en => some (st, en)
    | _, _ => none
  | _ => none

/-- `mcp.viewHandler`: `path` is required; the `view_range` argument is
validated by `parseViewRange`. -/
def viewHandler (env : Env) (args : JObj) : HandlerReturn :=
  match requiredString args (chars "path") with
  | Except.error e => ⟨toolError e, none, []⟩
  | Except.ok path =>
    let viewRange : Option (Int × Int) := parseViewRange args
    match env.viewFile path viewRange with
    | Except.error e => ⟨toolError e, none, [ExecCall.viewFile path viewRange]⟩
    | Except.ok r => ⟨toolSuccess r, none, [ExecCall.viewFile path viewRange]⟩

/-- `mcp.editHandler`. -/
def editHandler (env : Env) (args : JObj) : HandlerReturn :=
  match requiredString args (chars "path") with
  | Except.error e => ⟨toolError e, none, []⟩
  | Except.ok path =>
    match requiredString args (chars "old_str") with
    | Except.error e => ⟨toolError e, none, []⟩
    | Except.ok oldStr =>
      match requiredString args (chars "new_str") with
      | Except.error e => ⟨toolError e, none, []⟩
      | Except.ok newStr =>
        match env.editFile path oldStr newStr with
        | Except.error e => ⟨toolError e, none, [ExecCall.editFile path oldStr newStr]⟩
        | Except.ok _ =>
          ⟨toolSuccess (chars "Successfully edited " ++ path), none,
            [ExecCall.editFile path oldStr newStr]⟩

/-- `mcp.createHandler`. -/
def createHandler (env : Env) (args : JObj) : HandlerReturn :=
  match requiredString args (chars "path") with
  | Except.error e => ⟨toolError e, none, []⟩
  | Except.ok path =>
    match requiredString args (chars "file_text") with
    | Except.error e => ⟨toolError e, none, []⟩
    | Except.ok content =>
      match env.createFile path content with
      | Except.error e => ⟨toolError e, none, [ExecCall.createFile path content]⟩
      | Except.ok _ =>
        ⟨toolSuccess (chars "Created " ++ path), none, [ExecCall.createFile path content]⟩

/-- The sync-mode result text of `mcp.bashHandler`: stdout, a
`STDERR:` block when stderr is nonempty, and a trailing exit-code
marker when the exit code is nonzero. -/
def bashResultText (stdout stderr : Str) (exitCode : Int) : Str :=
  let withOut := stdout
  let withErr :=
    if stderr ≠ [] then
      (if withOut ≠ [] then withOut ++ ['\n'] else withOut) ++ chars "STDERR:\n" ++ stderr
    else withOut
  if exitCode ≠ 0 then withErr ++ chars "\n[exit code: " ++ (toString exitCode).data ++ chars "]"
  else withErr

/-- `mcp.bashHandler`: sync mode runs the command and reports outputs;
async mode generates `sh-<millis>` when no `shellId` is given, starts
the session, and returns a success embedding the id together with
whatever the initial `ReadSession` produced — a read error is
discarded (`output, _ := c.ReadSession(...)`), leaving the empty
output Go's `ReadSession` returns alongside its error. -/
def bashHandler (env : Env) (args : JObj) : HandlerReturn :=
  match requiredString args (chars "command") with
  | Except.error e => ⟨toolError e, none, []⟩
  | Except.ok command =>
    let mode := optionalString args (chars "mode")
    if mode = chars "async" then
      let given := optionalString args (chars "shellId")
      let shellId := if given = [] then chars "sh-" ++ (Nat.repr env.nowMillis).data else given
      match env.startSession shellId command with
      | Except.error e => ⟨toolError e, none, [ExecCall.startSession shellId command]⟩
      | Except.ok _ =>
        let output := match env.readSession shellId with
          | Except.ok o => o
          | Except.error _ => []
        ⟨toolSuccess (chars "Started async session: " ++ shellId ++ chars "\n\n" ++ output),
          none, [ExecCall.startSession shellId command, ExecCall.readSession shellId]⟩
    else
      match env.runBash command with
      | Except.error e => ⟨toolError e, none, [ExecCall.runBash command]⟩
      | Except.ok (stdout, stderr, exitCode) =>
        ⟨toolSuccess (bashResultText stdout stderr exitCode), none, [ExecCall.runBash command]⟩

/-- `mcp.grepHandler`: empty search output becomes the
`No matches found.` sentinel success. -/
def grepHandler (env : Env) (args : JObj) : HandlerReturn :=
  match requiredString args (chars "pattern") with
  | Except.error e => ⟨toolError e, none, []⟩
  | Except.ok pattern =>
    let path := optionalString args (chars "path")
    let glob := optionalString args (chars "glob")
    match env.grep pattern path glob with
    | Except.error e => ⟨toolError e, none, [ExecCall.grep pattern path glob]⟩
    | Except.ok result =>
      if result = [] then
        ⟨toolSuccess (chars "No matches found."), none, [ExecCall.grep pattern path glob]⟩
      else ⟨toolSuccess result, none, [ExecCall.grep pattern path glob]⟩

/-- `mcp.globHandler`. -/
def globHandler (env : Env) (args : JObj) : HandlerReturn :=
  match requiredString args (chars "pattern") with
  | Except.error e => ⟨toolError e, none, []⟩
  | Except.ok pattern =>
    let path := optionalString args (chars "path")
    match env.glob pattern path with
    | Except.error e => ⟨toolError e, none, [ExecCall.glob pattern path]⟩
    | Except.ok result =>
      if result = [] then
        ⟨toolSuccess (chars "No matches found."), none, [ExecCall.glob pattern path]⟩
      else ⟨toolSuccess result, none, [ExecCall.glob pattern path]⟩

/-- `mcp.writeBashHandler`: writes only when `input` is nonempty, then
reads the session back (the fixed `delay` sleep has no value-level
effect and is omitted). -/
def writeBashHandler (env : Env) (args : JObj) : HandlerReturn :=
  match requiredString args (chars "shellId") with
  | Except.error e => ⟨toolError e, none, []⟩
  | Except.ok shellId =>
    let input := optionalString args (chars "input")
    if input ≠ [] then
      match env.writeSession shellId input with
      | Except.error e => ⟨toolError e, none, [ExecCall.writeSession shellId input]⟩
      | Except.ok _ =>
        match env.readSession shellId with
        | Except.error e =>
          ⟨toolError e, none, [ExecCall.writeSession shellId input, ExecCall.readSession shellId]⟩
        | Except.ok output =>
          ⟨toolSuccess output, none,
            [ExecCall.writeSession shellId input, ExecCall.readSession shellId]⟩
    else
      match env.readSession shellId with
      | Except.error e => ⟨toolError e, none, [ExecCall.readSession shellId]⟩
      | Except.ok output => ⟨toolSuccess output, none, [ExecCall.readSession shellId]⟩

/-- `mcp.readBashHandler`. -/
def readBashHandler (env : Env) (args : JObj) : HandlerReturn :=
  match requiredString args (chars "shellId") with
  | Except.error e => ⟨toolError e, none, []⟩
  | Except.ok shellId =>
    match env.readSession shellId with
    | Except.error e => ⟨toolError e, none, [ExecCall.readSession shellId]⟩
    | Except.ok output => ⟨toolSuccess output, none, [ExecCall.readSession shellId]⟩

/-- `mcp.stopBashHandler`. -/
def stopBashHandler (env : Env) (args : JObj) : HandlerReturn :=
  match requiredString args (chars "shellId") with
  | Except.error e => ⟨toolError e, none, []⟩
  | Except.ok shellId =>
    match env.stopSession shellId with
    | Except.error e => ⟨toolError e, none, [ExecCall.stopSession shellId]⟩
    | Except.ok _ =>
      ⟨toolSuccess (chars "Session " ++ shellId ++ chars " stopped."), none,
        [ExecCall.stopSession shellId]⟩

/-- `mcp.listBashHandler`: an empty listing becomes the
`No active sessions.` sentinel success. -/
def listBashHandler (env : Env) (_args : JObj) : HandlerReturn :=
  match env.listSessions with
  | Except.error e => ⟨toolError e, none, [ExecCall.listSessions]⟩
  | Except.ok result =>
    if result = [] then ⟨toolSuccess (chars "No active sessions."), none, [ExecCall.listSessions]⟩
    else ⟨toolSuccess result, none, [ExecCall.listSessions]⟩

/-- `mcp.openShellHandler`: a local terminal-tab opener, no remote
dispatch. -/
def openShellHandler (env : Env) (_args : JObj) : HandlerReturn :=
  let sshCmd := chars "gh codespace ssh -c " ++ env.codespaceName
  match env.openTerminalTab sshCmd (chars "codespace: " ++ env.codespaceName) with
  | Except.error e => ⟨toolError (chars "Failed to open shell: " ++ e), none, []⟩
  | Except.ok _ =>
    ⟨toolSuccess (chars "Opened SSH shell to codespace in a new terminal tab."), none, []⟩

/-- The tool registry of `mcp.NewServer`: tool name, the `Required`
list of its input schema, and its handler. -/
def serverTools : List (Str × List Str × (Env → JObj → HandlerReturn)) :=
  [(chars "remote_view", [chars "path"], viewHandler),
   (chars "remote_edit", [chars "path", chars "old_str", chars "new_str"], editHandler),
   (chars "remote_create", [chars "path", chars "file_text"], createHandler),
   (chars "remote_bash", [chars "command"], bashHandler),
   (chars "remote_grep", [chars "pattern"], grepHandler),
   (chars "remote_glob", [chars "pattern"], globHandler),
   (chars "remote_write_bash", [chars "shellId"], writeBashHandler),
   (chars "remote_read_bash", [chars "shellId"], readBashHandler),
   (chars "remote_stop_bash", [chars "shellId"], stopBashHandler),
   (chars "remote_list_bash", [], listBashHandler),
   (chars "open_shell", [], openShellHandler)]

theorem requiredString_error_of_no_string {args : JObj} {key : Str}
    (h : hasStringArg args key = false) : ∃ e, requiredString args key = Except.error e := by
  unfold hasStringArg at h
  unfold requiredString
  cases hl : jlookup args key with
  | none => exact ⟨_, rfl⟩
  | some v =>
    cases v <;> rw [hl] at h <;> first
      | exact ⟨_, rfl⟩
      | exact absurd h (by simp)

theorem requiredString_ok_hasString {args : JObj} {key s : Str}
    (h : requiredString args key = Except.ok s) : hasStringArg args key = true := by
  unfold requiredString at h
  unfold hasStringArg
  cases hl : jlookup args key with
  | none => rw [hl] at h; cases h
  | some v => cases v <;> rw [hl] at h <;> first | rfl | cases h

/-! ### The Forwarding Rewriter

`main.rewriteMCPServerForSSH` and the per-handler loop body of
`main.rewriteHooksForSSH`, acting on decoded descriptor objects. Go
iterates `env` maps in arbitrary order; the association list is folded
in list order, which fixes one of the admissible orders. -/

/-- Delete a key (Go `delete(h, k)`). -/
def jdel : JObj → Str → JObj
  | [], _ => []
  | (k', v') :: rest, k =>
    if k' = k then jdel rest k else (k', v') :: jdel rest k

/-- Set a key (Go `h[k] = v`). -/
def jset : JObj → Str → JVal → JObj
  | [], k, v => [(k, v)]
  | (k', v') :: rest, k, v =>
    if k' = k then (k, v) :: rest else (k', v') :: jset rest k v

/-- One env binding of the server shell assembly:
`" && export k=v"` appended for a string binding — note the raw,
unquoted value. -/
def mcpExportStep (acc : Str) (kv : Str × JVal) : Str :=
  match kv.snd with
  | JVal.jstr s => acc ++ chars " && export " ++ kv.fst ++ ['='] ++ s
  | _ => acc

/-- The shell-assembly env accumulation of `rewriteMCPServerForSSH`. -/
def mcpEnvExports (start : Str) : Option JVal → Str
  | some (JVal.jobj env) => env.foldl mcpExportStep start
  | _ => start

/-- One argument of the shell assembly `command + " " + arg`. -/
def argJoinStep (acc : Str) (a : JVal) : Str :=
  match a with
  | JVal.jstr s => acc ++ [' '] ++ s
  | _ => acc

/-- The command plus its string arguments joined by spaces. -/
def argsJoined (command : Str) : Option JVal → Str
  | some (JVal.jarr l) => l.foldl argJoinStep command
  | _ => command

/-- The command string of a server descriptor (`server["command"]` as a
string, else empty). -/
def serverCommand (server : JObj) : Str :=
  match jlookup server (chars "command") with
  | some (JVal.jstr s) => s
  | _ => []

/-- The synthesized remote shell command of the server shell-assembly
fallback: `cd <workdir> && export k=v ... && exec <command args>`, all
values interpolated raw. -/
def mcpRemoteCmd (server : JObj) (workdir : Str) : Str :=
  mcpEnvExports (chars "cd " ++ workdir) (jlookup server (chars "env")) ++
    chars " && exec " ++ argsJoined (serverCommand server) (jlookup server (chars "args"))

/-- One structured `--env k=v` flag pair. -/
def mcpEnvFlagStep (acc : List Str) (kv : Str × JVal) : List Str :=
  match kv.snd with
  | JVal.jstr s => acc ++ [chars "--env", kv.fst ++ ['='] ++ s]
  | _ => acc

/-- The structured `--env k=v` flags. -/
def mcpEnvFlags : Option JVal → List Str
  | some (JVal.jobj env) => env.foldl mcpEnvFlagStep []
  | _ => []

/-- One structured command argument. -/
def cmdArgStep (acc : List Str) (a : JVal) : List Str :=
  match a with
  | JVal.jstr s => acc ++ [s]
  | _ => acc

/-- The string arguments of a server descriptor as a list. -/
def mcpCmdArgs : Option JVal → List Str
  | some (JVal.jarr l) => l.foldl cmdArgStep []
  | _ => []

/-- `main.rewriteMCPServerForSSH`: a fresh three-field descriptor
(`type`, `command`, `args`) invoking `gh codespace ssh`; with a
deployed remote binary the invocation is structured, otherwise one
shell command string is assembled. -/
def rewriteMCPServerForSSH (server : JObj) (codespaceName workdir remoteBinary : Str) :
    Option JObj :=
  if serverCommand server = [] then none
  else if remoteBinary ≠ [] then
    some [(chars "type", JVal.jstr (chars "local")),
          (chars "command", JVal.jstr (chars "gh")),
          (chars "args", JVal.jarr
            ((([chars "codespace", chars "ssh", chars "-c", codespaceName, chars "--",
                remoteBinary, chars "exec", chars "--workdir", workdir]
              ++ mcpEnvFlags (jlookup server (chars "env"))
              ++ [chars "--", serverCommand server]
              ++ mcpCmdArgs (jlookup server (chars "args"))).map JVal.jstr)))]
  else
    some [(chars "type", JVal.jstr (chars "local")),
          (chars "command", JVal.jstr (chars "gh")),
          (chars "args", JVal.jarr
            (([chars "codespace", chars "ssh", chars "-c", codespaceName,
               chars "--", chars "bash", chars "-c"].map JVal.jstr)
              ++ [JVal.jstr (mcpRemoteCmd server workdir)]))]

/-- The hook working directory: `workdir`, or `workdir/<cwd>` when the
handler carries a nonempty `cwd` other than `"."`. -/
def hookRemoteCwd (h : JObj) (workdir : Str) : Str :=
  match jlookup h (chars "cwd") with
  | some (JVal.jstr cwd) =>
    if cwd ≠ [] ∧ cwd ≠ chars "." then workdir ++ ['/'] ++ cwd else workdir
  | _ => workdir

/-- One env binding of the hook shell assembly: `"export k='v' && "`,
with the value shell quoted. -/
def hookExportStep (acc : Str) (kv : Str × JVal) : Str :=
  match kv.snd with
  | JVal.jstr s => acc ++ chars "export " ++ kv.fst ++ ['='] ++ shellQuote s ++ chars " && "
  | _ => acc

/-- The shell-assembly env accumulation of the hook rewriter. -/
def hookEnvExports : Option JVal → Str
  | some (JVal.jobj env) => env.foldl hookExportStep []
  | _ => []

/-- The synthesized remote shell command of the hook shell-assembly
fallback: `cd '<remoteCwd>' && export k='v' && ... <bash>`, with the
working directory and every env value shell quoted. -/
def hookRemoteCmd (h : JObj) (workdir bashCmd : Str) : Str :=
  chars "cd " ++ shellQuote (hookRemoteCwd h workdir) ++ chars " && " ++
    hookEnvExports (jlookup h (chars "env")) ++ bashCmd

/-- One structured ` --env k=v` suffix item of the hook rewriter. -/
def hookEnvFlagStep (acc : Str) (kv : Str × JVal) : Str :=
  match kv.snd with
  | JVal.jstr s => acc ++ chars " --env " ++ kv.fst ++ ['='] ++ s
  | _ => acc

/-- The structured ` --env k=v` suffix of the hook rewriter. -/
def hookEnvFlags : Option JVal → Str
  | some (JVal.jobj env) => env.foldl hookEnvFlagStep []
  | _ => []

/-- The per-handler loop body of `main.rewriteHooksForSSH`: a handler
without a (string, nonempty) `bash` field is left unchanged
(`continue`); otherwise `bash` is rewritten to an SSH invocation and
the `cwd` and `env` fields are deleted, everything else kept. -/
def rewriteHookHandler (h : JObj) (codespaceName workdir remoteBinary : Str) : JObj :=
  let bashCmd :=
    match jlookup h (chars "bash") with
    | some (JVal.jstr s) => s
    | _ => []
  if bashCmd = [] then h
  else
    let newBash :=
      if remoteBinary ≠ [] then
        chars "gh codespace ssh -c " ++ codespaceName ++ chars " -- " ++
          remoteBinary ++ chars " exec --workdir " ++ hookRemoteCwd h workdir ++
          hookEnvFlags (jlookup h (chars "env")) ++ chars " -- bash -c " ++ shellQuote bashCmd
      else
        chars "gh codespace ssh -c " ++ codespaceName ++ chars " -- bash -c " ++
          shellQuote (hookRemoteCmd h workdir bashCmd)
    jset (jdel (jdel h (chars "cwd")) (chars "env")) (chars "bash") (JVal.jstr newBash)

theorem jlookup_jdel_self (o : JObj) (k : Str) : jlookup (jdel o k) k = none := by
  induction o with
  | nil => rfl
  | cons kv rest ih =>
    obtain ⟨k', v'⟩ := kv
    by_cases h : k' = k
    · simp [jdel, h, ih]
    · simp [jdel, jlookup, h, ih]

theorem jlookup_jdel_ne (o : JObj) (k k' : Str) (hne : k' ≠ k) :
    jlookup (jdel o k) k' = jlookup o k' := by
  induction o with
  | nil => rfl
  | cons kv rest ih =>
    obtain ⟨k0, v0⟩ := kv
    by_cases h : k0 = k
    · subst h
      have : ¬ k0 = k' := fun hc => hne (hc ▸ rfl)
      simp [jdel, jlookup, this, ih]
    · by_cases h2 : k0 = k'
      · simp [jdel, jlookup, h, h2, hne]
      · simp [jdel, jlookup, h, h2, ih]

theorem jlookup_jset_self (o : JObj) (k : Str) (v : JVal) :
    jlookup (jset o k v) k = some v := by
  induction o with
  | nil => simp [jset, jlookup]
  | cons kv rest ih =>
    obtain ⟨k0, v0⟩ := kv
    by_cases h : k0 = k
    · simp [jset, jlookup, h]
    · simp [jset, jlookup, h, ih]

theorem jlookup_jset_ne (o : JObj) (k k' : Str) (v : JVal) (hne : k' ≠ k) :
    jlookup (jset o k v) k' = jlookup o k' := by
  induction o with
  | nil =>
    have : ¬ k = k' := fun hc => hne (hc ▸ rfl)
    simp [jset, jlookup, this]
  | cons kv rest ih =>
    obtain ⟨k0, v0⟩ := kv
    by_cases h : k0 = k
    · subst h
      have : ¬ k0 = k' := fun hc => hne (hc ▸ rfl)
      simp [jset, jlookup, this]
    · by_cases h2 : k0 = k'
      · simp [jset, jlookup, h, h2, hne]
      · simp [jset, jlookup, h, h2, ih]

/-! ### Supporting lemmas -/

theorem goCountAux_pos_split (p : Char) (ps new : Str) : ∀ s : Str, 1 ≤ goCountAux p ps s →
    ∃ pre suf, s = pre ++ (p :: ps) ++ suf ∧
      goReplaceFirstAux p ps new s = pre ++ new ++ suf := by
  intro s
  induction s with
  | nil => intro h; rw [goCountAux] at h; omega
  | cons c t ih =>
    intro h
    by_cases hp : (p :: ps).isPrefixOf (c :: t)
    · obtain ⟨tail, htail⟩ := List.isPrefixOf_iff_prefix.mp hp
      have htl : t.drop ps.length = tail := by
        have : (c :: t).drop (p :: ps).length = tail := by rw [← htail]; simp
        simpa [List.drop_succ_cons] using this
      refine ⟨[], t.drop ps.length, ?_, ?_⟩
      · rw [htl]; simpa using htail.symm
      · rw [goReplaceFirstAux, if_pos hp]; simp
    · rw [goCountAux, if_neg hp] at h
      obtain ⟨pre, suf, h1, h2⟩ := ih h
      refine ⟨c :: pre, suf, by simp [h1], ?_⟩
      rw [goReplaceFirstAux, if_neg hp, h2]
      simp

/-- A file just written reads back as written. -/
theorem fsRead_fsWrite_self (fs : FS) (p c : Str) :
    fsRead (fsWrite fs p c) p = some c := by
  induction fs with
  | nil => simp [fsWrite, fsRead]
  | cons e rest ih =>
    obtain ⟨p', c'⟩ := e
    by_cases h : p' = p
    · simp [fsWrite, fsRead, h]
    · simp [fsWrite, fsRead, h, ih]

theorem hookExport_foldl_append (env : JObj) : ∀ acc : Str,
    ∃ t, env.foldl hookExportStep acc = acc ++ t := by
  induction env with
  | nil => intro acc; exact ⟨[], by simp⟩
  | cons kv rest ih =>
    intro acc
    obtain ⟨k0, v0⟩ := kv
    obtain ⟨c0, hc0⟩ : ∃ c0, hookExportStep acc (k0, v0) = acc ++ c0 := by
      cases v0 <;> simp [hookExportStep]
    obtain ⟨t, ht⟩ := ih (hookExportStep acc (k0, v0))
    refine ⟨c0 ++ t, ?_⟩
    rw [List.foldl_cons, ht, hc0, List.append_assoc]

/-- Every env value of the hook shell assembly appears shell quoted in
the accumulated export prefix. -/
theorem hookExport_mem_quoted {env : JObj} {k v : Str}
    (hmem : (k, JVal.jstr v) ∈ env) : ∀ acc : Str,
    shellQuote v <:+: env.foldl hookExportStep acc := by
  induction env with
  | nil => simp at hmem
  | cons kv rest ih =>
    intro acc
    rcases List.mem_cons.mp hmem with heq | htail
    · subst heq
      obtain ⟨t, ht⟩ := hookExport_foldl_append rest (hookExportStep acc (k, JVal.jstr v))
      rw [List.foldl_cons, ht]
      refine ⟨acc ++ chars "export " ++ k ++ ['='], chars " && " ++ t, ?_⟩
      simp [hookExportStep]
    · exact ih htail _

theorem mcpExport_foldl_append (env : JObj) : ∀ acc : Str,
    ∃ t, env.foldl mcpExportStep acc = acc ++ t := by
  induction env with
  | nil => intro acc; exact ⟨[], by simp⟩
  | cons kv rest ih =>
    intro acc
    obtain ⟨k0, v0⟩ := kv
    obtain ⟨c0, hc0⟩ : ∃ c0, mcpExportStep acc (k0, v0) = acc ++ c0 := by
      cases v0 <;> simp [mcpExportStep]
    obtain ⟨t, ht⟩ := ih (mcpExportStep acc (k0, v0))
    refine ⟨c0 ++ t, ?_⟩
    rw [List.foldl_cons, ht, hc0, List.append_assoc]

/-- Every env binding of the server shell assembly appears as a raw
`&& export k=v` chunk (the value not quoted) in the accumulated
prefix. -/
theorem mcpExport_mem_raw {env : JObj} {k v : Str}
    (hmem : (k, JVal.jstr v) ∈ env) : ∀ acc : Str,
    (chars " && export " ++ k ++ ['='] ++ v) <:+: env.foldl mcpExportStep acc := by
  induction env with
  | nil => simp at hmem
  | cons kv rest ih =>
    intro acc
    rcases List.mem_cons.mp hmem with heq | htail
    · subst heq
      obtain ⟨t, ht⟩ := mcpExport_foldl_append rest (mcpExportStep acc (k, JVal.jstr v))
      rw [List.foldl_cons, ht]
      refine ⟨acc, t, ?_⟩
      simp [mcpExportStep]
    · exact ih htail _

/-- An `Env` backed by the remote file-store model: file operations act
on `fs`, the remaining oracles are inert. -/
def fsExec (fs : FS) : Env where
  viewFile := fun p r => viewFile fs p r
  editFile := fun p o n =>
    match editFile fs p o n with
    | (EditResult.edited, _) => Except.ok ()
    | _ => Except.error (chars "edit file failed")
  createFile := fun _ _ => Except.ok ()
  runBash := fun _ => Except.ok ([], [], 0)
  grep := fun _ _ _ => Except.ok []
  glob := fun _ _ => Except.ok []
  startSession := fun _ _ => Except.ok ()
  writeSession := fun _ _ => Except.ok ()
  readSession := fun _ => Except.ok []
  stopSession := fun _ => Except.ok ()
  listSessions := Except.ok []
  openTerminalTab := fun _ _ => Except.ok ()
  nowMillis := 0
  codespaceName := []

example : goCount (chars "banana") (chars "an") = 2 := by
  simp [goCount, goCountAux, List.isPrefixOf, chars]
example : goCount (chars "aa") (chars "a") = 2 := by
  simp [goCount, goCountAux, List.isPrefixOf, chars]
example : goReplaceFirst (chars "banana") (chars "an") (chars "X") = chars "bXana" := by decide
example : shellQuote (chars "it s") = chars "'it s'" := by decide
example : (shellQuote [squote]).length = 7 := by decide
example : awkRecords (chars "a\nb\n") = [chars "a", chars "b"] := by decide
example : awkRecords (chars "a\nb") = [chars "a", chars "b"] := by decide
example : awkRecords (chars "\n") = [[]] := by decide
example : viewFile [(chars "f", chars "aa")] (chars "f") none = Except.ok (chars "1. aa\n") := by rfl
example :
    editFile [(chars "f", chars "a")] (chars "f") (chars "a") (chars "aa") =
      (EditResult.edited, [(chars "f", chars "aa")]) := by
  simp [editFile, goCount, goCountAux, goReplaceFirst, goReplaceFirstAux, fsRead, fsWrite, chars]

/-! ### Claim theorems -/

/-- C2: `EditFile` with zero occurrences of `old` returns the
`NotFound` error and with two or more occurrences the `AmbiguousMatch`
error, leaving the file store unchanged in both cases; with exactly one
occurrence it replaces that occurrence and writes the file back. -/
theorem editFile_outcomes (fs : FS) (path oldStr newStr content : Str)
    (hread : fsRead fs path = some content) :
    (goCount content oldStr = 0 →
      editFile fs path oldStr newStr = (EditResult.notFound, fs)) ∧
    (2 ≤ goCount content oldStr →
      editFile fs path oldStr newStr =
        (EditResult.ambiguousMatch (goCount content oldStr), fs)) ∧
    (goCount content oldStr = 1 →
      editFile fs path oldStr newStr =
        (EditResult.edited, fsWrite fs path (goReplaceFirst content oldStr newStr))) := by
  unfold editFile
  rw [hread]
  dsimp only
  refine ⟨?_, ?_, ?_⟩ <;> intro h
  · rw [if_pos h]
  · rw [if_neg (by omega), if_pos (by omega)]
  · rw [if_neg (by omega), if_neg (by omega)]

theorem editFile_outcomes_witness :
    editFile [(chars "f", chars "aa")] (chars "f") (chars "a") (chars "X") =
      (EditResult.ambiguousMatch (goCount (chars "aa") (chars "a")), [(chars "f", chars "aa")]) :=
  (editFile_outcomes [(chars "f", chars "aa")] (chars "f") (chars "a") (chars "X")
      (chars "aa") rfl).2.1
    (by simp [goCount, goCountAux, List.isPrefixOf, chars])

/-- C1 (amended): after an `EditFile` whose `old` occurs exactly once,
the stored content is the original with that unique occurrence replaced
by `new` — the content splits as `pre ++ old ++ suf` and becomes
`pre ++ new ++ suf` — and `ViewFile` shows the line numbering of that
replaced content. (The original claim's occurrence counts `new` once /
`old` zero times need not hold, e.g. when `new` contains `old`.) -/
theorem editFile_viewFile_replaced (fs : FS) (path oldStr newStr content : Str)
    (hread : fsRead fs path = some content) (honce : goCount content oldStr = 1) :
    ∃ fs', editFile fs path oldStr newStr = (EditResult.edited, fs') ∧
      fsRead fs' path = some (goReplaceFirst content oldStr newStr) ∧
      viewFile fs' path none =
        Except.ok (numberFromFiltered (fun _ => true) 1
          (awkRecords (goReplaceFirst content oldStr newStr))) ∧
      ∃ pre suf, content = pre ++ oldStr ++ suf ∧
        goReplaceFirst content oldStr newStr = pre ++ newStr ++ suf := by
  refine ⟨fsWrite fs path (goReplaceFirst content oldStr newStr), ?_, ?_, ?_, ?_⟩
  · unfold editFile
    rw [hread]
    dsimp only
    rw [if_neg (by omega), if_neg (by omega)]
  · exact fsRead_fsWrite_self fs path _
  · unfold viewFile
    rw [fsRead_fsWrite_self]
  · cases oldStr with
    | nil =>
      have hlen : content.length = 0 := by
        simp only [goCount] at honce
        omega
      have hc : content = [] := List.eq_nil_of_length_eq_zero hlen
      subst hc
      exact ⟨[], [], by simp, by simp [goReplaceFirst]⟩
    | cons p ps =>
      have h1 : 1 ≤ goCountAux p ps content := by
        simp only [goCount] at honce
        omega
      obtain ⟨pre, suf, hsplit, hrep⟩ := goCountAux_pos_split p ps newStr content h1
      exact ⟨pre, suf, hsplit, by unfold goReplaceFirst; exact hrep⟩

theorem editFile_viewFile_replaced_witness :
    ∃ fs', editFile [(chars "f", chars "ab")] (chars "f") (chars "a") (chars "X") =
        (EditResult.edited, fs') ∧
      fsRead fs' (chars "f") = some (goReplaceFirst (chars "ab") (chars "a") (chars "X")) ∧
      viewFile fs' (chars "f") none =
        Except.ok (numberFromFiltered (fun _ => true) 1
          (awkRecords (goReplaceFirst (chars "ab") (chars "a") (chars "X")))) ∧
      ∃ pre suf, chars "ab" = pre ++ chars "a" ++ suf ∧
        goReplaceFirst (chars "ab") (chars "a") (chars "X") = pre ++ chars "X" ++ suf :=
  editFile_viewFile_replaced [(chars "f", chars "ab")] (chars "f") (chars "a") (chars "X")
    (chars "ab") rfl (by simp [goCount, goCountAux, List.isPrefixOf, chars])

/-- C1 counterexample: content `"a"`, `old = "a"` (occurring exactly
once), `new = "aa"`. The edit succeeds and writes `"aa"`, `ViewFile`
shows `"1. aa\n"`, and `old` occurs twice — not zero times — in what
`ViewFile` shows (and twice in the stored content), refuting the
claimed postcondition. -/
theorem editFile_old_reoccurs :
    goCount (chars "a") (chars "a") = 1 ∧
    editFile [(chars "f", chars "a")] (chars "f") (chars "a") (chars "aa") =
      (EditResult.edited, [(chars "f", chars "aa")]) ∧
    viewFile [(chars "f", chars "aa")] (chars "f") none = Except.ok (chars "1. aa\n") ∧
    goCount (chars "1. aa\n") (chars "a") = 2 ∧
    goCount (chars "aa") (chars "a") = 2 ∧ (2 : Nat) ≠ 0 := by
  refine ⟨?_, ?_, by rfl, ?_, ?_, by decide⟩ <;>
    simp [editFile, goCount, goCountAux, goReplaceFirst, goReplaceFirstAux,
      fsRead, fsWrite, chars, List.isPrefixOf]

/-- C4 (amended): the search pipeline of `Grep` forwards every remote
match line without any cap (the 200-line `head` stage exists only in
the `Glob` pipeline), and a search with zero matches yields the
`No matches found.` sentinel success, not an error. -/
theorem grep_no_cap_and_sentinel :
    (∀ ms : List Str, clientGrep ms = Except.ok (unlines ms)) ∧
    (∀ files : List Str, clientGlob files = Except.ok (unlines (files.take 200))) ∧
    (∀ (env : Env) (args : JObj) (pattern : Str),
      jlookup args (chars "pattern") = some (JVal.jstr pattern) →
      env.grep pattern (optionalString args (chars "path"))
          (optionalString args (chars "glob")) = Except.ok [] →
      (grepHandler env args).result = toolSuccess (chars "No matches found.") ∧
      (grepHandler env args).result.isError = false) ∧
    (∀ (env : Env) (args : JObj) (pattern out : Str),
      jlookup args (chars "pattern") = some (JVal.jstr pattern) →
      out ≠ [] →
      env.grep pattern (optionalString args (chars "path"))
          (optionalString args (chars "glob")) = Except.ok out →
      (grepHandler env args).result = toolSuccess out) := by
  refine ⟨?_, fun _ => rfl, ?_, ?_⟩
  · intro ms; cases ms <;> rfl
  · intro env args pattern hp hg
    have hr : requiredString args (chars "pattern") = Except.ok pattern := by
      unfold requiredString; rw [hp]
    unfold grepHandler
    rw [hr]
    dsimp only
    rw [hg]
    exact ⟨rfl, rfl⟩
  · intro env args pattern out hp hne hg
    have hr : requiredString args (chars "pattern") = Except.ok pattern := by
      unfold requiredString; rw [hp]
    unfold grepHandler
    rw [hr]
    dsimp only
    rw [hg]
    dsimp only
    rw [if_neg hne]

theorem grep_no_cap_and_sentinel_witness :
    (grepHandler (fsExec []) [(chars "pattern", JVal.jstr (chars "x"))]).result =
      toolSuccess (chars "No matches found.") :=
  ((grep_no_cap_and_sentinel.2.2.1 (fsExec []) [(chars "pattern", JVal.jstr (chars "x"))]
    (chars "x") rfl rfl)).1

/-- C4 counterexample: a remote search producing 201 match lines is
forwarded whole — the tool result carries 201 lines, more than the
claimed 200-line cap. -/
theorem grep_201_lines :
    clientGrep (List.replicate 201 (chars "m")) =
      Except.ok (unlines (List.replicate 201 (chars "m"))) ∧
    (grepHandler
        { fsExec [] with grep := fun _ _ _ => clientGrep (List.replicate 201 (chars "m")) }
        [(chars "pattern", JVal.jstr (chars "x"))]).result =
      toolSuccess (unlines (List.replicate 201 (chars "m"))) ∧
    (awkRecords (unlines (List.replicate 201 (chars "m")))).length = 201 ∧
    ¬ (201 ≤ 200) := by
  refine ⟨rfl, ?_, ?_, by decide⟩
  · rfl
  · rfl

/-- C5 (amended): in the hook rewriter's shell-assembly fallback, the
working directory and every environment-binding value are shell quoted
inside the synthesized remote command, and the rewritten hook's `bash`
field is the SSH invocation wrapping that command (quoted once more as
the `bash -c` argument). The MCP-server rewriter's shell-assembly
fallback, by contrast, interpolates the working directory and each
environment value raw — the synthesized command contains the literal
`&& export k=v` chunk with the value unquoted. -/
theorem hook_fallback_quoting :
    (∀ (h : JObj) (workdir bashCmd : Str),
      shellQuote (hookRemoteCwd h workdir) <:+: hookRemoteCmd h workdir bashCmd) ∧
    (∀ (h : JObj) (workdir bashCmd : Str) (env : JObj) (k v : Str),
      jlookup h (chars "env") = some (JVal.jobj env) →
      (k, JVal.jstr v) ∈ env →
      shellQuote v <:+: hookRemoteCmd h workdir bashCmd) ∧
    (∀ (h : JObj) (cs workdir bash : Str),
      jlookup h (chars "bash") = some (JVal.jstr bash) → bash ≠ [] →
      jlookup (rewriteHookHandler h cs workdir []) (chars "bash") =
        some (JVal.jstr (chars "gh codespace ssh -c " ++ cs ++ chars " -- bash -c " ++
          shellQuote (hookRemoteCmd h workdir bash)))) ∧
    (∀ (server : JObj) (workdir : Str) (env : JObj) (k v : Str),
      jlookup server (chars "env") = some (JVal.jobj env) →
      (k, JVal.jstr v) ∈ env →
      (chars " && export " ++ k ++ ['='] ++ v) <:+: mcpRemoteCmd server workdir) := by
  refine ⟨?_, ?_, ?_, ?_⟩
  · intro h workdir bashCmd
    refine ⟨chars "cd ",
      chars " && " ++ hookEnvExports (jlookup h (chars "env")) ++ bashCmd, ?_⟩
    simp [hookRemoteCmd]
  · intro h workdir bashCmd env k v henv hmem
    have hx : shellQuote v <:+: hookEnvExports (jlookup h (chars "env")) := by
      rw [henv]
      exact hookExport_mem_quoted hmem []
    have hshape : hookRemoteCmd h workdir bashCmd =
        (chars "cd " ++ shellQuote (hookRemoteCwd h workdir) ++ chars " && ") ++
          hookEnvExports (jlookup h (chars "env")) ++ bashCmd := by
      simp [hookRemoteCmd]
    rw [hshape]
    exact hx.trans (List.infix_append _ _ _)
  · intro h cs workdir bash hb hbne
    unfold rewriteHookHandler
    rw [hb]
    dsimp only
    rw [if_neg hbne, if_neg (by simp)]
    exact jlookup_jset_self _ _ _
  · intro server workdir env k v henv hmem
    have hx : (chars " && export " ++ k ++ ['='] ++ v) <:+:
        mcpEnvExports (chars "cd " ++ workdir) (jlookup server (chars "env")) := by
      rw [henv]
      exact mcpExport_mem_raw hmem _
    have hshape : mcpRemoteCmd server workdir =
        mcpEnvExports (chars "cd " ++ workdir) (jlookup server (chars "env")) ++
          (chars " && exec " ++ argsJoined (serverCommand server) (jlookup server (chars "args"))) := by
      simp [mcpRemoteCmd]
    rw [hshape]
    exact hx.trans (List.prefix_append _ _).isInfix

theorem hook_fallback_quoting_witness :
    shellQuote (chars "a b") <:+:
      hookRemoteCmd [(chars "bash", JVal.jstr (chars "./go.sh")),
        (chars "env", JVal.jobj [(chars "K", JVal.jstr (chars "a b"))])]
        (chars "/w") (chars "./go.sh") :=
  hook_fallback_quoting.2.1
    [(chars "bash", JVal.jstr (chars "./go.sh")),
     (chars "env", JVal.jobj [(chars "K", JVal.jstr (chars "a b"))])]
    (chars "/w") (chars "./go.sh")
    [(chars "K", JVal.jstr (chars "a b"))] (chars "K") (chars "a b")
    rfl (by simp)

/-- C5 counterexample: the MCP-server shell-assembly fallback. With
working directory `/w d` the synthesized command is
`cd /w d && exec run` — the quoted form `'/w d'` does not occur in it —
and with env binding `K=a b` the value is embedded raw, its quoted form
absent; the full rewritten descriptor carries exactly this unquoted
command as the `bash -c` argument. -/
theorem mcp_fallback_unquoted :
    mcpRemoteCmd [(chars "command", JVal.jstr (chars "run"))] (chars "/w d") =
      chars "cd /w d && exec run" ∧
    ¬ (shellQuote (chars "/w d") <:+: chars "cd /w d && exec run") ∧
    mcpRemoteCmd [(chars "command", JVal.jstr (chars "run")),
        (chars "env", JVal.jobj [(chars "K", JVal.jstr (chars "a b"))])] (chars "/w") =
      chars "cd /w && export K=a b && exec run" ∧
    ¬ (shellQuote (chars "a b") <:+: chars "cd /w && export K=a b && exec run") ∧
    rewriteMCPServerForSSH [(chars "command", JVal.jstr (chars "run"))]
        (chars "cs") (chars "/w d") [] =
      some [(chars "type", JVal.jstr (chars "local")),
            (chars "command", JVal.jstr (chars "gh")),
            (chars "args", JVal.jarr
              [JVal.jstr (chars "codespace"), JVal.jstr (chars "ssh"),
               JVal.jstr (chars "-c"), JVal.jstr (chars "cs"),
               JVal.jstr (chars "--"), JVal.jstr (chars "bash"), JVal.jstr (chars "-c"),
               JVal.jstr (chars "cd /w d && exec run")])] := by
  refine ⟨rfl, by decide, rfl, by decide, rfl⟩

/-- C6: `parseInput` decomposes the input into ordered literal and
control-key segments: concatenating the segments' source texts recovers
the input (NUL-marker-free inputs); a recognised token after brace-free
literal text becomes exactly one control-key segment, preceded by (at
most) one literal segment, with parsing continuing after the token;
text containing no recognised token stays one literal segment (so
unrecognised brace-like tokens are sent as literal text, not rejected);
`"ls\x7benter\x7d"` decomposes into exactly the two ordered segments
literal `"ls"` then Enter, and `WriteSession` dispatches them as two
discrete key-injection commands in input order. -/
theorem parseInput_decomposition :
    (∀ input : Str, '\x00' ∉ input → joinSegs (parseInput input) = input) ∧
    (∀ (pre : Str) (pat key : Str) (post : Str), (pat, key) ∈ specialKeys → '\x7b' ∉ pre →
      parseInput (pre ++ pat ++ post) =
        (if pre = [] then [] else [pre]) ++ ('\x00' :: key) :: parseInput post) ∧
    (∀ input : Str, input ≠ [] →
      (∀ pat key, (pat, key) ∈ specialKeys → ¬ pat <:+: input) →
      parseInput input = [input]) ∧
    parseInput (chars "ls\x7benter\x7d") = [chars "ls", '\x00' :: chars "Enter"] ∧
    parseInput (chars "\x7bfoo\x7dx") = [chars "\x7bfoo\x7dx"] ∧
    (∀ sessionID : Str, writeSessionCmds sessionID (chars "ls\x7benter\x7d") =
      [segCmd (tmuxSessionName sessionID) (chars "ls"),
       segCmd (tmuxSessionName sessionID) ('\x00' :: chars "Enter")]) := by
  have hls : parseInput (chars "ls\x7benter\x7d") = [chars "ls", '\x00' :: chars "Enter"] := by
    have h1 : findSpecial (chars "ls\x7benter\x7d") =
        some (chars "ls", chars "\x7benter\x7d", chars "Enter", []) := by rfl
    rw [parseInput, if_neg (by decide), h1]
    dsimp only
    rw [if_neg (by decide)]
    rw [parseInput, if_pos rfl]
    rfl
  refine ⟨joinSegs_parseInput, parseInput_token, parseInput_no_special, hls, ?_, ?_⟩
  · have h2 : findSpecial (chars "\x7bfoo\x7dx") = none := by rfl
    rw [parseInput, if_neg (by decide), h2]
  · intro sessionID
    rw [writeSessionCmds, hls]
    rfl

theorem parseInput_decomposition_witness :
    joinSegs (parseInput (chars "ls\x7benter\x7d")) = chars "ls\x7benter\x7d" ∧
    parseInput (chars "x" ++ chars "\x7bup\x7d" ++ chars "y") =
      [chars "x"] ++ ('\x00' :: chars "Up") :: parseInput (chars "y") ∧
    parseInput (chars "nope") = [chars "nope"] :=
  ⟨parseInput_decomposition.1 (chars "ls\x7benter\x7d") (by decide),
   by
    have h := parseInput_decomposition.2.1 (chars "x") (chars "\x7bup\x7d") (chars "Up")
      (chars "y") (by decide) (by decide)
    rw [h, if_neg (by decide)],
   parseInput_decomposition.2.2.1 (chars "nope") (by decide)
     (by
       intro pat key hmem hinf
       fin_cases hmem <;> revert hinf <;> decide)⟩

/-- C7: the remote session name `StartSession` creates is exactly the
reserved prefix `copilot-` concatenated with the identifier, and every
line `ListSessions` returns — and the session name it starts with —
begins with the reserved prefix, while a remote session whose formatted
line lacks the prefix is never returned. -/
theorem sessions_reserved_naming :
    (∀ sessionID : Str, tmuxSessionName sessionID = chars "copilot-" ++ sessionID) ∧
    (∀ (sessions : List TmuxSession) (l : Str), l ∈ listSessionsLines sessions →
      tmuxPrefixStr <+: l ∧ tmuxPrefixStr <+: lineSessionName l) ∧
    (∀ (sessions : List TmuxSession) (s : TmuxSession), s ∈ sessions →
      ¬ tmuxPrefixStr <+: sessionLine s → sessionLine s ∉ listSessionsLines sessions) := by
  refine ⟨fun _ => rfl, ?_, ?_⟩
  · intro sessions l hl
    have hp := List.of_mem_filter hl
    have hpre : tmuxPrefixStr <+: l := List.isPrefixOf_iff_prefix.mp hp
    refine ⟨hpre, ?_⟩
    exact takeWhile_keeps_lead hpre (by decide)
  · intro sessions s _ hnp hmem
    exact hnp (List.isPrefixOf_iff_prefix.mp (List.of_mem_filter hmem))

theorem sessions_reserved_naming_witness :
    tmuxSessionName (chars "abc") = chars "copilot-" ++ chars "abc" ∧
    tmuxPrefixStr <+: lineSessionName (sessionLine ⟨chars "copilot-a", 1, 2⟩) ∧
    sessionLine ⟨chars "rogue", 3, 4⟩ ∉
      listSessionsLines [⟨chars "copilot-a", 1, 2⟩, ⟨chars "rogue", 3, 4⟩] :=
  ⟨sessions_reserved_naming.1 (chars "abc"),
   (sessions_reserved_naming.2.1 [⟨chars "copilot-a", 1, 2⟩]
     (sessionLine ⟨chars "copilot-a", 1, 2⟩) (by decide)).2,
   sessions_reserved_naming.2.2 [⟨chars "copilot-a", 1, 2⟩, ⟨chars "rogue", 3, 4⟩]
     ⟨chars "rogue", 3, 4⟩ (by decide) (by decide)⟩

/-- C8 (amended): every rewritten descriptor carries no `cwd` and no
`env` field. Rewritten hook handlers additionally preserve all their
other fields. Rewritten MCP server descriptors, however, are rebuilt
from scratch and carry only `type`, `command` and `args` — any other
input field is dropped rather than preserved. -/
theorem rewritten_descriptors_no_cwd_env :
    (∀ (server : JObj) (cs wd rb : Str) (out : JObj),
      rewriteMCPServerForSSH server cs wd rb = some out →
      jlookup out (chars "cwd") = none ∧ jlookup out (chars "env") = none ∧
      ∀ k v, (k, v) ∈ out →
        k = chars "type" ∨ k = chars "command" ∨ k = chars "args") ∧
    (∀ (h : JObj) (cs wd rb bash : Str),
      jlookup h (chars "bash") = some (JVal.jstr bash) → bash ≠ [] →
      jlookup (rewriteHookHandler h cs wd rb) (chars "cwd") = none ∧
      jlookup (rewriteHookHandler h cs wd rb) (chars "env") = none ∧
      ∀ k, k ≠ chars "bash" → k ≠ chars "cwd" → k ≠ chars "env" →
        jlookup (rewriteHookHandler h cs wd rb) k = jlookup h k) := by
  constructor
  · intro server cs wd rb out hout
    unfold rewriteMCPServerForSSH at hout
    split at hout
    · cases hout
    · split at hout <;>
        (simp only [Option.some.injEq] at hout
         subst hout
         refine ⟨by simp +decide [jlookup], by simp +decide [jlookup], ?_⟩
         intro k v hkv
         simp only [List.mem_cons, List.not_mem_nil, or_false, Prod.mk.injEq] at hkv
         rcases hkv with ⟨rfl, _⟩ | ⟨rfl, _⟩ | ⟨rfl, _⟩
         · exact Or.inl rfl
         · exact Or.inr (Or.inl rfl)
         · exact Or.inr (Or.inr rfl))
  · intro h cs wd rb bash hb hbne
    unfold rewriteHookHandler
    rw [hb]
    dsimp only
    rw [if_neg hbne]
    refine ⟨?_, ?_, ?_⟩
    · rw [jlookup_jset_ne _ _ _ _ (by decide),
        jlookup_jdel_ne _ _ _ (by decide), jlookup_jdel_self]
    · rw [jlookup_jset_ne _ _ _ _ (by decide), jlookup_jdel_self]
    · intro k hk1 hk2 hk3
      rw [jlookup_jset_ne _ _ _ _ hk1, jlookup_jdel_ne _ _ _ hk3,
        jlookup_jdel_ne _ _ _ hk2]

theorem rewritten_descriptors_no_cwd_env_witness :
    jlookup (rewriteHookHandler
        [(chars "type", JVal.jstr (chars "command")),
         (chars "bash", JVal.jstr (chars "./check.sh")),
         (chars "cwd", JVal.jstr (chars "scripts")),
         (chars "env", JVal.jobj [(chars "LOG_LEVEL", JVal.jstr (chars "INFO"))])]
        (chars "my-cs") (chars "/workspaces/repo") [])
      (chars "cwd") = none ∧
    jlookup (rewriteHookHandler
        [(chars "type", JVal.jstr (chars "command")),
         (chars "bash", JVal.jstr (chars "./check.sh")),
         (chars "cwd", JVal.jstr (chars "scripts")),
         (chars "env", JVal.jobj [(chars "LOG_LEVEL", JVal.jstr (chars "INFO"))])]
        (chars "my-cs") (chars "/workspaces/repo") [])
      (chars "type") = some (JVal.jstr (chars "command")) :=
  ⟨((rewritten_descriptors_no_cwd_env.2
      [(chars "type", JVal.jstr (chars "command")),
       (chars "bash", JVal.jstr (chars "./check.sh")),
       (chars "cwd", JVal.jstr (chars "scripts")),
       (chars "env", JVal.jobj [(chars "LOG_LEVEL", JVal.jstr (chars "INFO"))])]
      (chars "my-cs") (chars "/workspaces/repo") [] (chars "./check.sh")
      rfl (by decide)).1),
   ((rewritten_descriptors_no_cwd_env.2
      [(chars "type", JVal.jstr (chars "command")),
       (chars "bash", JVal.jstr (chars "./check.sh")),
       (chars "cwd", JVal.jstr (chars "scripts")),
       (chars "env", JVal.jobj [(chars "LOG_LEVEL", JVal.jstr (chars "INFO"))])]
      (chars "my-cs") (chars "/workspaces/repo") [] (chars "./check.sh")
      rfl (by decide)).2.2 (chars "type") (by decide) (by decide) (by decide))⟩

/-- C8 counterexample: an MCP server descriptor carrying an extra field
`tools` loses it under either rewriting strategy — the output
descriptor answers `none` for `tools` although the input carried it,
refuting "the descriptor's other fields are preserved". -/
theorem mcp_rewrite_drops_fields :
    jlookup [(chars "command", JVal.jstr (chars "x")),
             (chars "tools", JVal.jstr (chars "y"))] (chars "tools") =
      some (JVal.jstr (chars "y")) ∧
    Option.map (fun o => jlookup o (chars "tools"))
      (rewriteMCPServerForSSH
        [(chars "command", JVal.jstr (chars "x")), (chars "tools", JVal.jstr (chars "y"))]
        (chars "cs") (chars "/w") (chars "rb")) = some none ∧
    Option.map (fun o => jlookup o (chars "tools"))
      (rewriteMCPServerForSSH
        [(chars "command", JVal.jstr (chars "x")), (chars "tools", JVal.jstr (chars "y"))]
        (chars "cs") (chars "/w") []) = some none :=
  ⟨rfl, rfl, rfl⟩

theorem parseViewRange_none {args : JObj}
    (hnot : ∀ qa qb : ℚ, jlookup args (chars "view_range") ≠
      some (JVal.jarr [JVal.jnum qa, JVal.jnum qb])) :
    parseViewRange args = none := by
  unfold parseViewRange
  cases hl : jlookup args (chars "view_range") with
  | none => rfl
  | some v =>
    cases v with
    | jstr s => rfl
    | jnum q => rfl
    | jbool b => rfl
    | jobj o => rfl
    | jnull => rfl
    | jarr l =>
      rcases l with _ | ⟨a, _ | ⟨b, _ | ⟨c, t⟩⟩⟩
      · rfl
      · rfl
      · cases a <;> cases b <;> first
          | rfl
          | (rename_i qa qb; exact absurd hl (hnot qa qb))
      · rfl

theorem parseViewRange_nums {args : JObj} {qa qb : ℚ}
    (hl : jlookup args (chars "view_range") =
      some (JVal.jarr [JVal.jnum qa, JVal.jnum qb])) :
    parseViewRange args = some (ratTrunc qa, ratTrunc qb) := by
  unfold parseViewRange
  rw [hl]
  rfl

/-- C9 (amended): a missing or non-string `path` yields the error
envelope with no dispatch; a `view_range` that is not a two-element
array of numbers is silently dropped — the handler requests and
returns the whole line-numbered file as a success; but a two-element
array of numbers with non-integer elements is not dropped: each element
is truncated toward zero and the resulting range is used. -/
theorem viewHandler_range_handling :
    (∀ (env : Env) (args : JObj),
      hasStringArg args (chars "path") = false →
      (viewHandler env args).result.isError = true ∧ (viewHandler env args).calls = []) ∧
    (∀ (env : Env) (args : JObj) (path : Str),
      jlookup args (chars "path") = some (JVal.jstr path) →
      (∀ qa qb : ℚ, jlookup args (chars "view_range") ≠
        some (JVal.jarr [JVal.jnum qa, JVal.jnum qb])) →
      (viewHandler env args).calls = [ExecCall.viewFile path none]) ∧
    (∀ (fs : FS) (args : JObj) (path content : Str),
      jlookup args (chars "path") = some (JVal.jstr path) →
      (∀ qa qb : ℚ, jlookup args (chars "view_range") ≠
        some (JVal.jarr [JVal.jnum qa, JVal.jnum qb])) →
      fsRead fs path = some content →
      (viewHandler (fsExec fs) args).result =
        toolSuccess (numberFromFiltered (fun _ => true) 1 (awkRecords content))) ∧
    (∀ (env : Env) (args : JObj) (path : Str) (qa qb : ℚ),
      jlookup args (chars "path") = some (JVal.jstr path) →
      jlookup args (chars "view_range") =
        some (JVal.jarr [JVal.jnum qa, JVal.jnum qb]) →
      (viewHandler env args).calls =
        [ExecCall.viewFile path (some (ratTrunc qa, ratTrunc qb))]) := by
  refine ⟨?_, ?_, ?_, ?_⟩
  · intro env args hmiss
    obtain ⟨e, he⟩ := requiredString_error_of_no_string hmiss
    unfold viewHandler
    rw [he]
    exact ⟨rfl, rfl⟩
  · intro env args path hp hnot
    have hr : requiredString args (chars "path") = Except.ok path := by
      unfold requiredString; rw [hp]
    unfold viewHandler
    rw [hr]
    dsimp only
    rw [parseViewRange_none hnot]
    cases env.viewFile path none <;> rfl
  · intro fs args path content hp hnot hread
    have hr : requiredString args (chars "path") = Except.ok path := by
      unfold requiredString; rw [hp]
    unfold viewHandler
    rw [hr]
    dsimp only
    rw [parseViewRange_none hnot]
    show (match viewFile fs path none with
      | Except.error e => HandlerReturn.mk (toolError e) none [ExecCall.viewFile path none]
      | Except.ok r => HandlerReturn.mk (toolSuccess r) none [ExecCall.viewFile path none]).result =
        toolSuccess (numberFromFiltered (fun _ => true) 1 (awkRecords content))
    unfold viewFile
    rw [hread]
  · intro env args path qa qb hp hl
    have hr : requiredString args (chars "path") = Except.ok path := by
      unfold requiredString; rw [hp]
    unfold viewHandler
    rw [hr]
    dsimp only
    rw [parseViewRange_nums hl]
    cases env.viewFile path (some (ratTrunc qa, ratTrunc qb)) <;> rfl

theorem viewHandler_range_handling_witness :
    (viewHandler (fsExec [(chars "f", chars "a\nb")])
        [(chars "path", JVal.jstr (chars "f")),
         (chars "view_range", JVal.jstr (chars "junk"))]).result =
      toolSuccess (numberFromFiltered (fun _ => true) 1 (awkRecords (chars "a\nb"))) ∧
    (viewHandler (fsExec []) []).result.isError = true :=
  ⟨viewHandler_range_handling.2.2.1 [(chars "f", chars "a\nb")]
      [(chars "path", JVal.jstr (chars "f")),
       (chars "view_range", JVal.jstr (chars "junk"))]
      (chars "f") (chars "a\nb") rfl (fun _ _ h => by cases h) rfl,
   (viewHandler_range_handling.1 (fsExec []) [] rfl).1⟩

/-- C9 counterexample: `view_range = [1.5, 3.7]` — present, two
elements, non-integer — is not ignored: the elements are truncated to
`[1, 3]` and only lines 1–3 of the four-line file are returned, which
differs from the whole file's content. -/
theorem viewHandler_truncates_range :
    (viewHandler (fsExec [(chars "f", chars "l1\nl2\nl3\nl4")])
        [(chars "path", JVal.jstr (chars "f")),
         (chars "view_range",
          JVal.jarr [JVal.jnum (mkRat 3 2), JVal.jnum (mkRat 37 10)])]).result =
      toolSuccess (chars "1. l1\n2. l2\n3. l3\n") ∧
    (viewHandler (fsExec [(chars "f", chars "l1\nl2\nl3\nl4")])
        [(chars "path", JVal.jstr (chars "f")),
         (chars "view_range",
          JVal.jarr [JVal.jnum (mkRat 3 2), JVal.jnum (mkRat 37 10)])]).calls =
      [ExecCall.viewFile (chars "f") (some (1, 3))] ∧
    (viewHandler (fsExec [(chars "f", chars "l1\nl2\nl3\nl4")])
        [(chars "path", JVal.jstr (chars "f"))]).result =
      toolSuccess (chars "1. l1\n2. l2\n3. l3\n4. l4\n") ∧
    chars "1. l1\n2. l2\n3. l3\n" ≠ chars "1. l1\n2. l2\n3. l3\n4. l4\n" := by
  exact ⟨rfl, rfl, rfl, by decide⟩

/-- C10: in async mode with `shellId` omitted, empty or non-string, the
session identifier is `sh-` followed by the millisecond clock; once
`StartSession` succeeds the handler returns a success embedding that
identifier, with the initial `ReadSession` output appended when the
read succeeds and discarded — never surfaced as an error envelope —
when it fails. -/
theorem bashHandler_async_id_and_read :
    ∀ (env : Env) (args : JObj) (command : Str),
      jlookup args (chars "command") = some (JVal.jstr command) →
      optionalString args (chars "mode") = chars "async" →
      optionalString args (chars "shellId") = [] →
      env.startSession (chars "sh-" ++ (Nat.repr env.nowMillis).data) command = Except.ok () →
      (bashHandler env args).goError = none ∧
      (bashHandler env args).calls =
        [ExecCall.startSession (chars "sh-" ++ (Nat.repr env.nowMillis).data) command,
         ExecCall.readSession (chars "sh-" ++ (Nat.repr env.nowMillis).data)] ∧
      (bashHandler env args).result =
        toolSuccess (chars "Started async session: " ++
          (chars "sh-" ++ (Nat.repr env.nowMillis).data) ++ chars "\n\n" ++
          (match env.readSession (chars "sh-" ++ (Nat.repr env.nowMillis).data) with
           | Except.ok o => o
           | Except.error _ => [])) ∧
      (∀ e, env.readSession (chars "sh-" ++ (Nat.repr env.nowMillis).data) = Except.error e →
        (bashHandler env args).result =
          toolSuccess (chars "Started async session: " ++
            (chars "sh-" ++ (Nat.repr env.nowMillis).data) ++ chars "\n\n") ∧
        (bashHandler env args).result.isError = false) := by
  intro env args command hc hm hs hstart
  have hr : requiredString args (chars "command") = Except.ok command := by
    unfold requiredString; rw [hc]
  have hred : bashHandler env args =
      ⟨toolSuccess (chars "Started async session: " ++
          (chars "sh-" ++ (Nat.repr env.nowMillis).data) ++ chars "\n\n" ++
          (match env.readSession (chars "sh-" ++ (Nat.repr env.nowMillis).data) with
           | Except.ok o => o
           | Except.error _ => [])),
        none,
        [ExecCall.startSession (chars "sh-" ++ (Nat.repr env.nowMillis).data) command,
         ExecCall.readSession (chars "sh-" ++ (Nat.repr env.nowMillis).data)]⟩ := by
    unfold bashHandler
    rw [hr]
    dsimp only
    rw [hm, if_pos rfl, hs, if_pos rfl, hstart]
  refine ⟨by rw [hred], by rw [hred], by rw [hred], ?_⟩
  intro e he
  rw [hred, he]
  exact ⟨by simp, rfl⟩

theorem bashHandler_async_id_and_read_witness :
    (bashHandler
        { fsExec [] with
            readSession := fun _ => Except.error (chars "read failed"),
            nowMillis := 42 }
        [(chars "command", JVal.jstr (chars "sleep 60")),
         (chars "mode", JVal.jstr (chars "async"))]).result =
      toolSuccess (chars "Started async session: " ++
        (chars "sh-" ++ (Nat.repr 42).data) ++ chars "\n\n") ∧
    (bashHandler
        { fsExec [] with
            readSession := fun _ => Except.error (chars "read failed"),
            nowMillis := 42 }
        [(chars "command", JVal.jstr (chars "sleep 60")),
         (chars "mode", JVal.jstr (chars "async"))]).result.isError = false :=
  (bashHandler_async_id_and_read
    { fsExec [] with
        readSession := fun _ => Except.error (chars "read failed"),
        nowMillis := 42 }
    [(chars "command", JVal.jstr (chars "sleep 60")),
     (chars "mode", JVal.jstr (chars "async"))]
    (chars "sleep 60") rfl rfl rfl rfl).2.2.2
    (chars "read failed") rfl

/-- C3: every registered tool handler returns the result envelope with
the Go error component `nil` — domain failures become `IsError` result
payloads, never protocol-level faults — and whenever a required
argument of the tool's schema is missing or not a string, the handler
returns the error envelope having dispatched no `ssh.Client`
operation. -/
theorem handlers_uniform_envelope :
    ∀ (name : Str) (req : List Str) (handler : Env → JObj → HandlerReturn),
      (name, req, handler) ∈ serverTools → ∀ (env : Env) (args : JObj),
      (handler env args).goError = none ∧
      ((∃ k, k ∈ req ∧ hasStringArg args k = false) →
        (handler env args).result.isError = true ∧ (handler env args).calls = []) := by
  intro name req handler hmem env args
  simp only [serverTools, List.mem_cons, List.not_mem_nil, or_false,
    Prod.mk.injEq] at hmem
  rcases hmem with hview | hedit | hcreate | hbash | hgrep | hglob | hwrite | hread |
    hstop | hlist | hopen
  · obtain ⟨rfl, rfl, rfl⟩ := hview
    refine ⟨?_, ?_⟩
    · unfold viewHandler
      repeat' (first | split | (dsimp only; split))
      all_goals rfl
    · rintro ⟨k, hk, hks⟩
      simp only [List.mem_singleton] at hk
      subst hk
      obtain ⟨e, he⟩ := requiredString_error_of_no_string hks
      unfold viewHandler
      rw [he]
      exact ⟨rfl, rfl⟩
  · obtain ⟨rfl, rfl, rfl⟩ := hedit
    refine ⟨?_, ?_⟩
    · unfold editHandler
      repeat' (first | split | (dsimp only; split))
      all_goals rfl
    · rintro ⟨k, hk, hks⟩
      cases h1 : requiredString args (chars "path") with
      | error e => unfold editHandler; rw [h1]; exact ⟨rfl, rfl⟩
      | ok p =>
        cases h2 : requiredString args (chars "old_str") with
        | error e => unfold editHandler; rw [h1, h2]; exact ⟨rfl, rfl⟩
        | ok o =>
          cases h3 : requiredString args (chars "new_str") with
          | error e => unfold editHandler; rw [h1, h2, h3]; exact ⟨rfl, rfl⟩
          | ok n =>
            exfalso
            have g1 := requiredString_ok_hasString h1
            have g2 := requiredString_ok_hasString h2
            have g3 := requiredString_ok_hasString h3
            simp only [List.mem_cons, List.mem_singleton, List.not_mem_nil, or_false] at hk
            rcases hk with rfl | rfl | rfl <;> simp_all
  · obtain ⟨rfl, rfl, rfl⟩ := hcreate
    refine ⟨?_, ?_⟩
    · unfold createHandler
      repeat' (first | split | (dsimp only; split))
      all_goals rfl
    · rintro ⟨k, hk, hks⟩
      cases h1 : requiredString args (chars "path") with
      | error e => unfold createHandler; rw [h1]; exact ⟨rfl, rfl⟩
      | ok p =>
        cases h2 : requiredString args (chars "file_text") with
        | error e => unfold createHandler; rw [h1, h2]; exact ⟨rfl, rfl⟩
        | ok o =>
          exfalso
          have g1 := requiredString_ok_hasString h1
          have g2 := requiredString_ok_hasString h2
          simp only [List.mem_cons, List.mem_singleton, List.not_mem_nil, or_false] at hk
          rcases hk with rfl | rfl <;> simp_all
  · obtain ⟨rfl, rfl, rfl⟩ := hbash
    refine ⟨?_, ?_⟩
    · unfold bashHandler
      repeat' (first | split | (dsimp only; split))
      all_goals rfl
    · rintro ⟨k, hk, hks⟩
      simp only [List.mem_singleton] at hk
      subst hk
      obtain ⟨e, he⟩ := requiredString_error_of_no_string hks
      unfold bashHandler
      rw [he]
      exact ⟨rfl, rfl⟩
  · obtain ⟨rfl, rfl, rfl⟩ := hgrep
    refine ⟨?_, ?_⟩
    · unfold grepHandler
      repeat' (first | split | (dsimp only; split))
      all_goals rfl
    · rintro ⟨k, hk, hks⟩
      simp only [List.mem_singleton] at hk
      subst hk
      obtain ⟨e, he⟩ := requiredString_error_of_no_string hks
      unfold grepHandler
      rw [he]
      exact ⟨rfl, rfl⟩
  · obtain ⟨rfl, rfl, rfl⟩ := hglob
    refine ⟨?_, ?_⟩
    · unfold globHandler
      repeat' (first | split | (dsimp only; split))
      all_goals rfl
    · rintro ⟨k, hk, hks⟩
      simp only [List.mem_singleton] at hk
      subst hk
      obtain ⟨e, he⟩ := requiredString_error_of_no_string hks
      unfold globHandler
      rw [he]
      exact ⟨rfl, rfl⟩
  · obtain ⟨rfl, rfl, rfl⟩ := hwrite
    refine ⟨?_, ?_⟩
    · unfold writeBashHandler
      repeat' (first | split | (dsimp only; split))
      all_goals rfl
    · rintro ⟨k, hk, hks⟩
      simp only [List.mem_singleton] at hk
      subst hk
      obtain ⟨e, he⟩ := requiredString_error_of_no_string hks
      unfold writeBashHandler
      rw [he]
      exact ⟨rfl, rfl⟩
  · obtain ⟨rfl, rfl, rfl⟩ := hread
    refine ⟨?_, ?_⟩
    · unfold readBashHandler
      repeat' (first | split | (dsimp only; split))
      all_goals rfl
    · rintro ⟨k, hk, hks⟩
      simp only [List.mem_singleton] at hk
      subst hk
      obtain ⟨e, he⟩ := requiredString_error_of_no_string hks
      unfold readBashHandler
      rw [he]
      exact ⟨rfl, rfl⟩
  · obtain ⟨rfl, rfl, rfl⟩ := hstop
    refine ⟨?_, ?_⟩
    · unfold stopBashHandler
      repeat' (first | split | (dsimp only; split))
      all_goals rfl
    · rintro ⟨k, hk, hks⟩
      simp only [List.mem_singleton] at hk
      subst hk
      obtain ⟨e, he⟩ := requiredString_error_of_no_string hks
      unfold stopBashHandler
      rw [he]
      exact ⟨rfl, rfl⟩
  · obtain ⟨rfl, rfl, rfl⟩ := hlist
    refine ⟨?_, ?_⟩
    · unfold listBashHandler
      repeat' (first | split | (dsimp only; split))
      all_goals rfl
    · rintro ⟨k, hk, _⟩
      simp at hk
  · obtain ⟨rfl, rfl, rfl⟩ := hopen
    refine ⟨?_, ?_⟩
    · unfold openShellHandler
      repeat' (first | split | (dsimp only; split))
      all_goals rfl
    · rintro ⟨k, hk, _⟩
      simp at hk

theorem handlers_uniform_envelope_witness :
    (editHandler (fsExec []) [(chars "path", JVal.jstr (chars "f"))]).result.isError = true ∧
    (editHandler (fsExec []) [(chars "path", JVal.jstr (chars "f"))]).calls = [] :=
  (handlers_uniform_envelope (chars "remote_edit")
      [chars "path", chars "old_str", chars "new_str"] editHandler
      (by unfold serverTools; exact List.mem_cons_of_mem _ (List.mem_cons_self _ _))
      (fsExec []) [(chars "path", JVal.jstr (chars "f"))]).2
    ⟨chars "old_str", by decide, rfl⟩
